import Mathlib

/-!
Verification development for the SetOperationsOnSortedNumericStreams
repository (package `sorted_numeric_streams`, file `operations.go`).

The repository implements set operations (Union, Intersect, Diff) on
sorted streams via a merge-join loop `iterate`.  We embed the code
shallowly:

* A pull-based stream whose observable behaviour is to deliver a fixed
  finite sequence of values and then report exhaustion is modelled by the
  `List` of its not-yet-delivered values.  `SliceStream` (cursor over a
  slice) and `ChannelStream` (unbuffered channel fed by a single
  producer) are additionally modelled as explicit state machines for the
  adapter-level claims.
* The combine callback `operation[T] = func(a, b *T)` receives two
  possibly-nil pointers; a call is modelled as a pair
  `Option T × Option T`.  `iterate` is side-effect free except for these
  calls, so we model it as a function returning the list of calls it
  makes (the `trace`), together with the final remaining contents of the
  two input streams.
* Each operation's combine policy pushes zero or one values into the
  output channel per call; it is modelled as a function
  `Option T × Option T → List T`, and the sequence of values an
  operation pushes (hence the contents of its output stream, which
  `ToSlice` materializes, since the producer goroutine pushes them in
  order into the unbuffered channel and then closes it) is the
  concatenation of the pushes over the trace.
* Go's zero value (`var empty T`) is modelled by `default` from an
  `Inhabited` instance; for `Int` this is `0`.

The element type is any linear order with a designated zero/default
value, mirroring Go's `constraints.Ordered` generic bound.
-/

namespace SortedNumericStreams

variable {T : Type} [LinearOrder T] [Inhabited T]

/-- One call to the combine callback `operation[T] = func(a, b *T)`:
`none` models a nil pointer argument. -/
abbrev Signal (T : Type) := Option T × Option T

/-- Result of running `iterate`: the sequence of combine-callback calls it
made, and the values still un-pulled in each input stream when it
returned. -/
structure IterResult (T : Type) where
  trace : List (Signal T)
  rem1 : List T
  rem2 : List T
deriving Repr, DecidableEq

/-- Stop policy `shouldStop = func(aClosed, bClosed bool) bool`. -/
abbrev shouldStop := Bool → Bool → Bool

/-- Inner loop of `iterate` entered when stream1 is exhausted
(operations.go lines 152-161): while stream2 has values, emit them
right-only.  The Go loop keeps the variables `empty2` and `i2`; at the
top of each pass it emits the buffered `i2` whenever `empty2` is false.
Crucially the Go code never resets `empty2` to true inside this loop
(unlike the symmetric loop for stream1, line 175), so `empty2` keeps its
entry value on every pass; we reproduce that faithfully by passing
`empty2` through unchanged. -/
def drainStream2 (empty2 : Bool) (i2 : T) : List T → List (Signal T)
  | [] => if empty2 then [] else [(none, some i2)]
  | v :: s2 =>
      (if empty2 then [] else [(none, some i2)])
        ++ (none, some v) :: drainStream2 empty2 v s2

/-- Inner loop of `iterate` entered when stream2 is exhausted
(operations.go lines 172-182): emit the buffered `i1` (if any) left-only,
setting `empty1 = true`, then emit every further stream1 value
left-only. -/
def drainStream1 (empty1 : Bool) (i1 : T) : List T → List (Signal T)
  | [] => if empty1 then [] else [(some i1, none)]
  | v :: s1 =>
      (if empty1 then [] else [(some i1, none)])
        ++ (some v, none) :: drainStream1 true v s1

/-- Main loop of `iterate` (operations.go lines 145-204) in the state
where both sides hold a buffered head (`empty1 = empty2 = false`,
`i1`/`i2` buffered, `s1`/`s2` the values not yet pulled).  Each branch
mirrors one arm of the three-way comparison; after clearing a side's
buffer the next pass of the Go loop immediately re-pulls that side, which
we fuse into the recursive call, reaching the exhaustion branches (stop
policy check, then drain loop) when the pull fails. -/
def mergeLoop (stop : shouldStop) (asc : Bool) (i1 i2 : T) (s1 s2 : List T) :
    IterResult T :=
  if i1 = i2 then
    -- op(&i1, &i2); both sides cleared, both re-pulled next pass
    match s1 with
    | [] =>
        if stop true false then ⟨[(some i1, some i2)], [], s2⟩
        else ⟨(some i1, some i2) :: drainStream2 true i2 s2, [], []⟩
    | a :: s1' =>
        match s2 with
        | [] =>
            if stop false true then ⟨[(some i1, some i2)], s1', []⟩
            else ⟨(some i1, some i2) :: drainStream1 false a s1', [], []⟩
        | b :: s2' =>
            let r := mergeLoop stop asc a b s1' s2'
            ⟨(some i1, some i2) :: r.trace, r.rem1, r.rem2⟩
  else if asc ∧ i1 < i2 then
    -- op(&i1, nil); left cleared and re-pulled, i2 stays buffered
    match s1 with
    | [] =>
        if stop true false then ⟨[(some i1, none)], [], s2⟩
        else ⟨(some i1, none) :: drainStream2 false i2 s2, [], []⟩
    | a :: s1' =>
        let r := mergeLoop stop asc a i2 s1' s2
        ⟨(some i1, none) :: r.trace, r.rem1, r.rem2⟩
  else if asc ∧ i2 < i1 then
    -- op(nil, &i2); right cleared and re-pulled, i1 stays buffered
    match s2 with
    | [] =>
        if stop false true then ⟨[(none, some i2)], s1, []⟩
        else ⟨(none, some i2) :: drainStream1 false i1 s1, [], []⟩
    | b :: s2' =>
        let r := mergeLoop stop asc i1 b s1 s2'
        ⟨(none, some i2) :: r.trace, r.rem1, r.rem2⟩
  else if ¬asc ∧ i1 < i2 then
    -- descending, i1 < i2: op(nil, &i2); right cleared and re-pulled
    match s2 with
    | [] =>
        if stop false true then ⟨[(none, some i2)], s1, []⟩
        else ⟨(none, some i2) :: drainStream1 false i1 s1, [], []⟩
    | b :: s2' =>
        let r := mergeLoop stop asc i1 b s1 s2'
        ⟨(none, some i2) :: r.trace, r.rem1, r.rem2⟩
  else
    -- descending, i1 > i2 (the only remaining case of the total order):
    -- op(&i1, nil); left cleared and re-pulled
    match s1 with
    | [] =>
        if stop true false then ⟨[(some i1, none)], [], s2⟩
        else ⟨(some i1, none) :: drainStream2 false i2 s2, [], []⟩
    | a :: s1' =>
        let r := mergeLoop stop asc a i2 s1' s2
        ⟨(some i1, none) :: r.trace, r.rem1, r.rem2⟩
termination_by s1.length + s2.length
decreasing_by all_goals simp only [List.length_cons]; all_goals omega

/-- Entry of `iterate` (operations.go line 137): both buffers empty
(`empty1 = empty2 = true`), `i1`/`i2` hold the zero value.  The first
pass pulls stream1, then stream2; a failed pull goes to the stop-policy
check and possibly a drain loop, otherwise `mergeLoop` takes over. -/
def iterate (stop : shouldStop) (asc : Bool) (s1 s2 : List T) : IterResult T :=
  match s1 with
  | [] =>
      if stop true false then ⟨[], [], s2⟩
      else ⟨drainStream2 true default s2, [], []⟩
  | a :: s1' =>
      match s2 with
      | [] =>
          if stop false true then ⟨[], s1', []⟩
          else ⟨drainStream1 false a s1', [], []⟩
      | b :: s2' => mergeLoop stop asc a b s1' s2'

/-- Combine policy of `Union` (operations.go lines 73-89): push `*a` when
both present, else push whichever side is present. -/
def unionCombine : Signal T → List T
  | (some a, some _) => [a]
  | (some a, none) => [a]
  | (none, some b) => [b]
  | (none, none) => []

/-- Stop policy of `Union` (operations.go line 90): never stop early. -/
def unionStop : shouldStop := fun _ _ => false

/-- Combine policy of `Intersect` (operations.go lines 103-108): push
`*a` only when both sides are present. -/
def intersectCombine : Signal T → List T
  | (some a, some _) => [a]
  | (some _, none) => []
  | (none, some _) => []
  | (none, none) => []

/-- Stop policy of `Intersect` (operations.go line 109): stop as soon as
either side is exhausted. -/
def intersectStop : shouldStop := fun aClosed bClosed => aClosed || bClosed

/-- Combine policy of `Diff` (operations.go lines 122-126): push `*a`
only when the left side alone is present. -/
def diffCombine : Signal T → List T
  | (some a, none) => [a]
  | (some _, some _) => []
  | (none, some _) => []
  | (none, none) => []

/-- Stop policy of `Diff` (operations.go line 127): stop as soon as the
left side is exhausted. -/
def diffStop : shouldStop := fun aClosed _ => aClosed

/-- ChannelStream models the unbuffered result channel: `pending` is the
sequence of values the (single) producer pushes before closing, `closed`
records whether `Close` has been called after them.  `Next` receives
from the channel. -/
structure ChannelStream (T : Type) where
  pending : List T
  closed : Bool
deriving Repr, DecidableEq

/-- ChannelStream.Next (operations.go lines 32-35): receive the next
pushed value, or after `Close` report exhaustion with the zero value.
`none` models a receive that blocks forever (producer neither pushes nor
closes), which cannot return. -/
def ChannelStream.Next (s : ChannelStream T) : Option (T × Bool × ChannelStream T) :=
  match s.pending with
  | v :: rest => some (v, true, ⟨rest, s.closed⟩)
  | [] => if s.closed then some (default, false, s) else none

/-- Union (operations.go lines 71-98): run `iterate` with the union
policies in a goroutine, pushing results into a fresh channel and
closing it when done.  The resulting stream's content is the pushed
sequence. -/
def Union (s1 s2 : List T) (asc : Bool) : ChannelStream T :=
  ⟨(iterate unionStop asc s1 s2).trace.flatMap unionCombine, true⟩

/-- Intersect (operations.go lines 101-117). -/
def Intersect (s1 s2 : List T) (asc : Bool) : ChannelStream T :=
  ⟨(iterate intersectStop asc s1 s2).trace.flatMap intersectCombine, true⟩

/-- Diff (operations.go lines 120-135). -/
def Diff (s1 s2 : List T) (asc : Bool) : ChannelStream T :=
  ⟨(iterate diffStop asc s1 s2).trace.flatMap diffCombine, true⟩

/-- ToSlice (operations.go lines 207-217) pulls until exhaustion.  On a
channel whose producer has finished (pushed `pending` and closed), it
collects exactly the pushed values in order. -/
def ToSlice (s : ChannelStream T) : List T :=
  s.pending

/-- SliceStream (operations.go lines 48-51): a slice plus a cursor. -/
structure SliceStream (T : Type) where
  slice : List T
  pos : Nat
deriving Repr, DecidableEq

/-- NewSliceStream (operations.go lines 63-68). -/
def NewSliceStream (slice : List T) : SliceStream T :=
  ⟨slice, 0⟩

/-- SliceStream.Next (operations.go lines 54-62): yield the element at
the cursor and advance, else report exhaustion with the zero value
(`var empty T`). -/
def SliceStream.Next (s : SliceStream T) : T × Bool × SliceStream T :=
  if h : s.pos < s.slice.length then
    (s.slice.get ⟨s.pos, h⟩, true, ⟨s.slice, s.pos + 1⟩)
  else
    (default, false, s)

/-- Values a SliceStream will still deliver (what `ToSlice` applied to it
would return). -/
def SliceStream.remaining (s : SliceStream T) : List T :=
  s.slice.drop s.pos

/-- State reached after one call to SliceStream.Next. -/
def SliceStream.step (s : SliceStream T) : SliceStream T :=
  s.Next.2.2

/-- State reached after one (non-blocking) call to ChannelStream.Next,
unchanged if the call would block. -/
def ChannelStream.step (s : ChannelStream T) : ChannelStream T :=
  match s.Next with
  | some (_, _, s') => s'
  | none => s

/-- State of a SliceStream after n further calls to Next. -/
def SliceStream.stepN : Nat → SliceStream T → SliceStream T
  | 0, s => s
  | n + 1, s => SliceStream.stepN n s.step

/-- State of a ChannelStream after n further (non-blocking) calls to
Next. -/
def ChannelStream.stepN : Nat → ChannelStream T → ChannelStream T
  | 0, s => s
  | n + 1, s => ChannelStream.stepN n s.step

/-! ### Helper lemmas about the drain loops -/

/-- Pushes made by the Diff combine policy over the stream2-exhausted
drain loop: the buffered head (if any) followed by every further stream1
value. -/
theorem drainStream1_flatMap_diff (e : Bool) (i1 : T) (s1 : List T) :
    (drainStream1 e i1 s1).flatMap diffCombine = (if e then [] else [i1]) ++ s1 := by
  induction s1 generalizing e i1 with
  | nil => cases e <;> simp [drainStream1, diffCombine]
  | cons v s ih => cases e <;> simp [drainStream1, diffCombine, ih]

/-- Elements of stream1 are not in an empty stream2, so a filter by
membership in `[]` keeps everything. -/
theorem filter_mem_nil (l : List T) :
    (l.filter fun a => decide (a ∈ ([] : List T))) = [] := by
  simp

/-! ### Intersect correctness over the merge loop -/

/-- On sorted duplicate-free inputs with both heads buffered, the values
the Intersect combine policy pushes over the rest of the run are exactly
the members of the left side that occur in the right side, in left-side
order. -/
theorem mergeLoop_intersect_aux (n : Nat) :
    ∀ (i1 i2 : T) (s1 s2 : List T), s1.length + s2.length = n →
      (i1 :: s1).Sorted (· < ·) → (i2 :: s2).Sorted (· < ·) →
      (mergeLoop intersectStop true i1 i2 s1 s2).trace.flatMap intersectCombine
        = (i1 :: s1).filter fun a => decide (a ∈ i2 :: s2) := by
  induction n using Nat.strong_induction_on with
  | _ n ih =>
  intro i1 i2 s1 s2 hn h1 h2
  obtain ⟨h1h, h1t⟩ := List.sorted_cons.mp h1
  obtain ⟨h2h, h2t⟩ := List.sorted_cons.mp h2
  rcases lt_trichotomy i1 i2 with hlt | heq | hgt
  · -- ascending, i1 < i2: left-only signal, left re-pulled
    have hne : ¬ i1 = i2 := ne_of_lt hlt
    have hi1s2 : ¬ i1 ∈ s2 := fun hx => absurd (h2h i1 hx) (not_lt_of_gt hlt)
    rw [mergeLoop.eq_def, if_neg hne,
      if_pos (show (true : Bool) = true ∧ i1 < i2 from ⟨rfl, hlt⟩)]
    cases s1 with
    | nil =>
        simp [intersectStop, intersectCombine, hne, hi1s2]
    | cons a s1' =>
        have hlt' : s1'.length + s2.length < n := by
          simp only [List.length_cons] at hn; omega
        have ihx := ih _ hlt' a i2 s1' s2 rfl h1t h2
        simp [intersectCombine, ihx, List.filter_cons, hne, hi1s2]
  · -- equal heads: both-present signal, both re-pulled
    subst heq
    rw [mergeLoop.eq_def, if_pos rfl]
    cases s1 with
    | nil =>
        simp [intersectStop, intersectCombine]
    | cons a s1' =>
        have hstep : ∀ x ∈ a :: s1', ¬ x = i1 := fun x hx hxe =>
          absurd (h1h x hx) (by rw [hxe]; exact lt_irrefl i1)
        cases s2 with
        | nil =>
            have hane : ¬ a = i1 := hstep a (List.mem_cons_self a s1')
            have htail : List.filter (fun x => decide (x = i1)) s1' = [] := by
              rw [List.filter_eq_nil_iff]
              intro x hx
              simpa using hstep x (List.mem_cons_of_mem a hx)
            simp [intersectStop, intersectCombine, hane, htail]
        | cons b s2' =>
            have hlt' : s1'.length + s2'.length < n := by
              simp only [List.length_cons] at hn; omega
            have ihx := ih _ hlt' a b s1' s2' rfl h1t h2t
            have hcongr : ((a :: s1').filter fun x => decide (x ∈ i1 :: b :: s2'))
                = (a :: s1').filter fun x => decide (x ∈ b :: s2') :=
              List.filter_congr fun x hx => by simp [List.mem_cons, hstep x hx]
            have hmem : decide (i1 ∈ i1 :: b :: s2') = true := by simp
            simp only [List.flatMap_cons, ihx, intersectCombine, List.singleton_append]
            conv_rhs => rw [List.filter_cons, hmem]
            rw [if_pos rfl, hcongr]
  · -- ascending, i1 > i2: right-only signal, right re-pulled
    have hne : ¬ i1 = i2 := ne_of_gt hgt
    have hall : ∀ x ∈ i1 :: s1, ¬ x = i2 := by
      intro x hx hxe
      subst hxe
      rcases List.mem_cons.mp hx with h | h
      · exact hne h.symm
      · exact absurd (h1h x h) (asymm hgt)
    rw [mergeLoop.eq_def, if_neg hne,
      if_neg (show ¬ ((true : Bool) = true ∧ i1 < i2) from
        fun h => absurd h.2 (not_lt_of_gt hgt)),
      if_pos (show (true : Bool) = true ∧ i2 < i1 from ⟨rfl, hgt⟩)]
    cases s2 with
    | nil =>
        simp only [intersectStop, Bool.or_true, if_pos rfl]
        simp [intersectCombine]
        exact ⟨hne, fun x hx => hall x (List.mem_cons_of_mem i1 hx)⟩
    | cons b s2' =>
        have hlt' : s1.length + s2'.length < n := by
          simp only [List.length_cons] at hn; omega
        have ihx := ih _ hlt' i1 b s1 s2' rfl h1 h2t
        have hcongr : ((i1 :: s1).filter fun x => decide (x ∈ i2 :: b :: s2'))
            = (i1 :: s1).filter fun x => decide (x ∈ b :: s2') :=
          List.filter_congr fun x hx => by simp [List.mem_cons, hall x hx]
        rw [hcongr]
        simp only [List.flatMap_cons, intersectCombine, List.nil_append, ihx]

/-- On sorted duplicate-free inputs with both heads buffered, the values
the Intersect combine policy pushes over the rest of the run are exactly
the members of the left side that occur in the right side, in left-side
order. -/
theorem mergeLoop_intersect_flatMap (i1 i2 : T) (s1 s2 : List T)
    (h1 : (i1 :: s1).Sorted (· < ·)) (h2 : (i2 :: s2).Sorted (· < ·)) :
    (mergeLoop intersectStop true i1 i2 s1 s2).trace.flatMap intersectCombine
      = (i1 :: s1).filter fun a => decide (a ∈ i2 :: s2) :=
  mergeLoop_intersect_aux (s1.length + s2.length) i1 i2 s1 s2 rfl h1 h2

/-- Entry-level version of `mergeLoop_intersect_flatMap`: on sorted
duplicate-free inputs, the values Intersect pushes are the members of
the left input that occur in the right input, in left order. -/
theorem iterate_intersect_flatMap (l1 l2 : List T)
    (h1 : l1.Sorted (· < ·)) (h2 : l2.Sorted (· < ·)) :
    (iterate intersectStop true l1 l2).trace.flatMap intersectCombine
      = l1.filter fun a => decide (a ∈ l2) := by
  cases l1 with
  | nil => simp [iterate, intersectStop]
  | cons a l1' =>
      cases l2 with
      | nil => simp [iterate, intersectStop]
      | cons b l2' => exact mergeLoop_intersect_flatMap a b l1' l2' h1 h2

/-! ### Diff correctness over the merge loop -/

theorem mergeLoop_diff_aux (n : Nat) :
    ∀ (i1 i2 : T) (s1 s2 : List T), s1.length + s2.length = n →
      (i1 :: s1).Sorted (· < ·) → (i2 :: s2).Sorted (· < ·) →
      (mergeLoop diffStop true i1 i2 s1 s2).trace.flatMap diffCombine
        = (i1 :: s1).filter fun a => decide (¬ a ∈ i2 :: s2) := by
  induction n using Nat.strong_induction_on with
  | _ n ih =>
  intro i1 i2 s1 s2 hn h1 h2
  obtain ⟨h1h, h1t⟩ := List.sorted_cons.mp h1
  obtain ⟨h2h, h2t⟩ := List.sorted_cons.mp h2
  rcases lt_trichotomy i1 i2 with hlt | heq | hgt
  · -- ascending, i1 < i2: left-only signal, left re-pulled
    have hne : ¬ i1 = i2 := ne_of_lt hlt
    have hi1s2 : ¬ i1 ∈ s2 := fun hx => absurd (h2h i1 hx) (not_lt_of_gt hlt)
    rw [mergeLoop.eq_def, if_neg hne,
      if_pos (show (true : Bool) = true ∧ i1 < i2 from ⟨rfl, hlt⟩)]
    cases s1 with
    | nil =>
        simp [diffStop, diffCombine, hne, hi1s2]
    | cons a s1' =>
        have hlt' : s1'.length + s2.length < n := by
          simp only [List.length_cons] at hn; omega
        have ihx := ih _ hlt' a i2 s1' s2 rfl h1t h2
        simp [diffCombine, ihx, List.filter_cons, hne, hi1s2]
  · -- equal heads: both-present signal, both re-pulled
    subst heq
    rw [mergeLoop.eq_def, if_pos rfl]
    cases s1 with
    | nil =>
        simp [diffStop, diffCombine]
    | cons a s1' =>
        have hstep : ∀ x ∈ a :: s1', ¬ x = i1 := fun x hx hxe =>
          absurd (h1h x hx) (by rw [hxe]; exact lt_irrefl i1)
        cases s2 with
        | nil =>
            have hane : ¬ a = i1 := hstep a (List.mem_cons_self a s1')
            have htail : List.filter (fun x => !decide (x = i1)) s1' = s1' := by
              rw [List.filter_eq_self]
              intro x hx
              simpa using hstep x (List.mem_cons_of_mem a hx)
            simp [diffStop, diffCombine, drainStream1_flatMap_diff, hane, htail]
        | cons b s2' =>
            have hlt' : s1'.length + s2'.length < n := by
              simp only [List.length_cons] at hn; omega
            have ihx := ih _ hlt' a b s1' s2' rfl h1t h2t
            have hcongr : ((a :: s1').filter fun x => decide (¬ x ∈ i1 :: b :: s2'))
                = (a :: s1').filter fun x => decide (¬ x ∈ b :: s2') :=
              List.filter_congr fun x hx => by simp [List.mem_cons, hstep x hx]
            have hmem : decide (¬ i1 ∈ i1 :: b :: s2') = false := by simp
            simp only [List.flatMap_cons, ihx, diffCombine, List.nil_append]
            conv_rhs => rw [List.filter_cons, hmem]
            rw [if_neg (by simp), hcongr]
  · -- ascending, i1 > i2: right-only signal, right re-pulled
    have hne : ¬ i1 = i2 := ne_of_gt hgt
    have hall : ∀ x ∈ i1 :: s1, ¬ x = i2 := by
      intro x hx hxe
      subst hxe
      rcases List.mem_cons.mp hx with h | h
      · exact hne h.symm
      · exact absurd (h1h x h) (asymm hgt)
    rw [mergeLoop.eq_def, if_neg hne,
      if_neg (show ¬ ((true : Bool) = true ∧ i1 < i2) from
        fun h => absurd h.2 (not_lt_of_gt hgt)),
      if_pos (show (true : Bool) = true ∧ i2 < i1 from ⟨rfl, hgt⟩)]
    cases s2 with
    | nil =>
        have hkeep : List.filter (fun x => !decide (x = i2)) (i1 :: s1) = i1 :: s1 := by
          rw [List.filter_eq_self]
          intro x hx
          simpa using hall x hx
        simp [diffStop, diffCombine, drainStream1_flatMap_diff, hkeep]
    | cons b s2' =>
        have hlt' : s1.length + s2'.length < n := by
          simp only [List.length_cons] at hn; omega
        have ihx := ih _ hlt' i1 b s1 s2' rfl h1 h2t
        have hcongr : ((i1 :: s1).filter fun x => decide (¬ x ∈ i2 :: b :: s2'))
            = (i1 :: s1).filter fun x => decide (¬ x ∈ b :: s2') :=
          List.filter_congr fun x hx => by simp [List.mem_cons, hall x hx]
        rw [hcongr]
        simp only [List.flatMap_cons, diffCombine, List.nil_append, ihx]

/-- On sorted duplicate-free inputs with both heads buffered, the values
the Diff combine policy pushes over the rest of the run are exactly the
members of the left side absent from the right side, in left order. -/
theorem mergeLoop_diff_flatMap (i1 i2 : T) (s1 s2 : List T)
    (h1 : (i1 :: s1).Sorted (· < ·)) (h2 : (i2 :: s2).Sorted (· < ·)) :
    (mergeLoop diffStop true i1 i2 s1 s2).trace.flatMap diffCombine
      = (i1 :: s1).filter fun a => decide (¬ a ∈ i2 :: s2) :=
  mergeLoop_diff_aux (s1.length + s2.length) i1 i2 s1 s2 rfl h1 h2

/-- Entry-level version of `mergeLoop_diff_flatMap`: the values Diff
pushes are the members of the left input absent from the right input, in
left order. -/
theorem iterate_diff_flatMap (l1 l2 : List T)
    (h1 : l1.Sorted (· < ·)) (h2 : l2.Sorted (· < ·)) :
    (iterate diffStop true l1 l2).trace.flatMap diffCombine
      = l1.filter fun a => decide (¬ a ∈ l2) := by
  cases l1 with
  | nil => simp [iterate, diffStop]
  | cons a l1' =>
      cases l2 with
      | nil => simp [iterate, diffStop, drainStream1_flatMap_diff]
      | cons b l2' => exact mergeLoop_diff_flatMap a b l1' l2' h1 h2

/-! ## Claim theorems -/

/-- C1: the spec claims Union on ascending duplicate-free inputs yields
each element of the set union exactly once.  At A = [1], B = [2, 3] the
code emits the value 3 twice (the stream1-exhausted drain loop never
resets `empty2`), refuting the claim: the output is [1, 2, 3, 3], not
[1, 2, 3]. -/
theorem union_emits_duplicate :
    ToSlice (Union ([1] : List Int) [2, 3] true) = [1, 2, 3, 3]
      ∧ ¬ ToSlice (Union ([1] : List Int) [2, 3] true) = [1, 2, 3] := by
  have h : ToSlice (Union ([1] : List Int) [2, 3] true) = [1, 2, 3, 3] := by
    simp [ToSlice, Union, iterate, mergeLoop, drainStream1, drainStream2,
      unionStop, unionCombine]
  exact ⟨h, by rw [h]; decide⟩

/-- C2: the spec claims the left-exhausted drain phase (entered when the
stop policy returns false) delivers the buffered right head once and
each subsequent right value exactly once.  With left = [1] and
right = [2, 3] under the Union policies, the head 2 is buffered when the
left exhausts, and the subsequent value 3 is then delivered right-only
twice. -/
theorem drain_double_delivery :
    unionStop true false = false
      ∧ (iterate unionStop true ([1] : List Int) [2, 3]).trace
          = [(some 1, none), (none, some 2), (none, some 3), (none, some 3)] := by
  refine ⟨rfl, ?_⟩
  simp [iterate, mergeLoop, drainStream1, drainStream2, unionStop]

/-- C3: Intersect on ascending duplicate-free inputs materializes to the
ascending sorted sequence of the set intersection (a sorted-without-
duplicates list with exactly the common members), and on
[1,2,3] ∩ [1,2,3] yields [1,2,3]. -/
theorem intersect_sorted_correct (l1 l2 : List Int)
    (h1 : l1.Sorted (· < ·)) (h2 : l2.Sorted (· < ·)) :
    (ToSlice (Intersect l1 l2 true)).Sorted (· < ·)
      ∧ (∀ x, x ∈ ToSlice (Intersect l1 l2 true) ↔ x ∈ l1 ∧ x ∈ l2)
      ∧ ToSlice (Intersect ([1, 2, 3] : List Int) [1, 2, 3] true) = [1, 2, 3] := by
  have hres : ToSlice (Intersect l1 l2 true) = l1.filter fun a => decide (a ∈ l2) :=
    iterate_intersect_flatMap l1 l2 h1 h2
  refine ⟨?_, ?_, ?_⟩
  · rw [hres]
    exact List.Pairwise.filter _ h1
  · intro x
    rw [hres]
    simp [List.mem_filter]
  · simp [ToSlice, Intersect, iterate, mergeLoop, drainStream1, drainStream2,
      intersectStop, intersectCombine]

/-- Witness for C3 at l1 = l2 = [1, 2, 3]. -/
theorem intersect_sorted_correct_witness :
    ([1, 2, 3] : List Int).Sorted (· < ·)
      ∧ ((ToSlice (Intersect ([1, 2, 3] : List Int) [1, 2, 3] true)).Sorted (· < ·)
        ∧ (∀ x, x ∈ ToSlice (Intersect ([1, 2, 3] : List Int) [1, 2, 3] true)
              ↔ x ∈ ([1, 2, 3] : List Int) ∧ x ∈ ([1, 2, 3] : List Int))
        ∧ ToSlice (Intersect ([1, 2, 3] : List Int) [1, 2, 3] true) = [1, 2, 3]) :=
  ⟨by decide, intersect_sorted_correct [1, 2, 3] [1, 2, 3] (by decide) (by decide)⟩

/-- C4: Diff on ascending duplicate-free inputs materializes to the
ascending sorted sequence of the set difference; Diff([1,2,3],[1])
yields [2,3] and leaves both inputs fully drained. -/
theorem diff_sorted_correct (l1 l2 : List Int)
    (h1 : l1.Sorted (· < ·)) (h2 : l2.Sorted (· < ·)) :
    (ToSlice (Diff l1 l2 true)).Sorted (· < ·)
      ∧ (∀ x, x ∈ ToSlice (Diff l1 l2 true) ↔ x ∈ l1 ∧ ¬ x ∈ l2)
      ∧ ToSlice (Diff ([1, 2, 3] : List Int) [1] true) = [2, 3]
      ∧ (iterate diffStop true ([1, 2, 3] : List Int) [1]).rem1 = []
      ∧ (iterate diffStop true ([1, 2, 3] : List Int) [1]).rem2 = [] := by
  have hres : ToSlice (Diff l1 l2 true) = l1.filter fun a => decide (¬ a ∈ l2) :=
    iterate_diff_flatMap l1 l2 h1 h2
  refine ⟨?_, ?_, ?_, ?_, ?_⟩
  · rw [hres]
    exact List.Pairwise.filter _ h1
  · intro x
    rw [hres]
    simp [List.mem_filter]
  · simp [ToSlice, Diff, iterate, mergeLoop, drainStream1, drainStream2,
      diffStop, diffCombine]
  · simp [iterate, mergeLoop, diffStop]
  · simp [iterate, mergeLoop, diffStop]

/-- Witness for C4 at l1 = [1, 2, 3], l2 = [1]. -/
theorem diff_sorted_correct_witness :
    ([1, 2, 3] : List Int).Sorted (· < ·)
      ∧ ((ToSlice (Diff ([1, 2, 3] : List Int) [1] true)).Sorted (· < ·)
        ∧ (∀ x, x ∈ ToSlice (Diff ([1, 2, 3] : List Int) [1] true)
              ↔ x ∈ ([1, 2, 3] : List Int) ∧ ¬ x ∈ ([1] : List Int))
        ∧ ToSlice (Diff ([1, 2, 3] : List Int) [1] true) = [2, 3]
        ∧ (iterate diffStop true ([1, 2, 3] : List Int) [1]).rem1 = []
        ∧ (iterate diffStop true ([1, 2, 3] : List Int) [1]).rem2 = []) :=
  ⟨by decide, diff_sorted_correct [1, 2, 3] [1] (by decide) (by decide)⟩

/-- C5: the spec claims reversing both inputs and the direction flag
reverses the output for all three operations.  Union refutes it: with
A = [1], B = [2, 3], the descending run on the reversed inputs yields
[3, 2, 1] while the reverse of the ascending output is [3, 3, 2, 1]
(the ascending run hits the drain-loop duplicate emission). -/
theorem union_direction_symmetry_fails :
    ToSlice (Union ([1] : List Int).reverse ([2, 3] : List Int).reverse false) = [3, 2, 1]
      ∧ (ToSlice (Union ([1] : List Int) [2, 3] true)).reverse = [3, 3, 2, 1]
      ∧ ¬ ToSlice (Union ([1] : List Int).reverse ([2, 3] : List Int).reverse false)
          = (ToSlice (Union ([1] : List Int) [2, 3] true)).reverse := by
  have hd : ToSlice (Union ([1] : List Int).reverse ([2, 3] : List Int).reverse false)
      = [3, 2, 1] := by
    simp [ToSlice, Union, iterate, mergeLoop, drainStream1, drainStream2,
      unionStop, unionCombine]
  have ha : (ToSlice (Union ([1] : List Int) [2, 3] true)).reverse = [3, 3, 2, 1] := by
    have h : ToSlice (Union ([1] : List Int) [2, 3] true) = [1, 2, 3, 3] := by
      simp [ToSlice, Union, iterate, mergeLoop, drainStream1, drainStream2,
        unionStop, unionCombine]
    rw [h]
    decide
  exact ⟨hd, ha, by rw [hd, ha]; decide⟩

/-- C6: the streamed pipeline Diff(Intersect(A,B),C) materializes to the
eager computation (A ∩ B) ∖ C in the same order: the ascending sorted
sequence of that set, and [2] on the concrete example. -/
theorem composition_streamed_eq_eager (A B C : List Int)
    (hA : A.Sorted (· < ·)) (hB : B.Sorted (· < ·)) (hC : C.Sorted (· < ·)) :
    ToSlice (Diff (ToSlice (Intersect A B true)) C true)
        = (A.filter fun a => decide (a ∈ B)).filter (fun a => decide (¬ a ∈ C))
      ∧ (ToSlice (Diff (ToSlice (Intersect A B true)) C true)).Sorted (· < ·)
      ∧ (∀ x, x ∈ ToSlice (Diff (ToSlice (Intersect A B true)) C true)
            ↔ (x ∈ A ∧ x ∈ B) ∧ ¬ x ∈ C)
      ∧ ToSlice (Diff (ToSlice (Intersect ([1, 2, 3] : List Int) [2, 3] true)) [3] true)
          = [2] := by
  have hAB : ToSlice (Intersect A B true) = A.filter fun a => decide (a ∈ B) :=
    iterate_intersect_flatMap A B hA hB
  have hABs : (A.filter fun a => decide (a ∈ B)).Sorted (· < ·) :=
    List.Pairwise.filter _ hA
  have hD : ToSlice (Diff (ToSlice (Intersect A B true)) C true)
      = (A.filter fun a => decide (a ∈ B)).filter fun a => decide (¬ a ∈ C) := by
    rw [hAB]
    exact iterate_diff_flatMap _ C hABs hC
  refine ⟨hD, ?_, ?_, ?_⟩
  · rw [hD]
    exact List.Pairwise.filter _ hABs
  · intro x
    rw [hD]
    simp [List.mem_filter]
    tauto
  · simp [ToSlice, Intersect, Diff, iterate, mergeLoop, drainStream1, drainStream2,
      intersectStop, diffStop, intersectCombine, diffCombine]

/-- Witness for C6 at A = [1, 2, 3], B = [2, 3], C = [3]. -/
theorem composition_streamed_eq_eager_witness :
    ([3] : List Int).Sorted (· < ·)
      ∧ (ToSlice (Diff (ToSlice (Intersect ([1, 2, 3] : List Int) [2, 3] true)) [3] true)
          = (([1, 2, 3] : List Int).filter fun a => decide (a ∈ ([2, 3] : List Int))).filter
              (fun a => decide (¬ a ∈ ([3] : List Int)))
        ∧ (ToSlice (Diff (ToSlice (Intersect ([1, 2, 3] : List Int) [2, 3] true)) [3]
              true)).Sorted (· < ·)
        ∧ (∀ x, x ∈ ToSlice (Diff (ToSlice (Intersect ([1, 2, 3] : List Int) [2, 3] true))
              [3] true)
            ↔ (x ∈ ([1, 2, 3] : List Int) ∧ x ∈ ([2, 3] : List Int))
                ∧ ¬ x ∈ ([3] : List Int))
        ∧ ToSlice (Diff (ToSlice (Intersect ([1, 2, 3] : List Int) [2, 3] true)) [3] true)
            = [2]) :=
  ⟨by decide, composition_streamed_eq_eager [1, 2, 3] [2, 3] [3]
    (by decide) (by decide) (by decide)⟩

/-- C7: early-terminating operations leave the specified residue in
their inputs: Intersect([1,2,3],[1]) returns [1] leaving [3] on the left
(2 was pulled and discarded) and [] on the right; Diff([1],[1,2,3])
returns [] leaving [2,3] on the right. -/
theorem early_stop_residue :
    ToSlice (Intersect ([1, 2, 3] : List Int) [1] true) = [1]
      ∧ (iterate intersectStop true ([1, 2, 3] : List Int) [1]).rem1 = [3]
      ∧ (iterate intersectStop true ([1, 2, 3] : List Int) [1]).rem2 = []
      ∧ ToSlice (Diff ([1] : List Int) [1, 2, 3] true) = []
      ∧ (iterate diffStop true ([1] : List Int) [1, 2, 3]).rem1 = []
      ∧ (iterate diffStop true ([1] : List Int) [1, 2, 3]).rem2 = [2, 3] := by
  refine ⟨?_, ?_, ?_, ?_, ?_, ?_⟩ <;>
    simp [ToSlice, Intersect, Diff, iterate, mergeLoop, drainStream1, drainStream2,
      intersectStop, diffStop, intersectCombine, diffCombine]

/-- C10: on exhaustion, Next returns the zero value of T (modelled by
`default`; 0 for Int) together with ok = false: SliceStream when the
cursor has reached the end of the slice, ChannelStream when the channel
is closed and empty. -/
theorem exhausted_next_returns_zero :
    (∀ s : SliceStream Int, ¬ s.pos < s.slice.length →
        s.Next = (default, false, s))
      ∧ (∀ s : ChannelStream Int, s.pending = [] → s.closed = true →
          s.Next = some (default, false, s)) := by
  constructor
  · intro s h
    rw [SliceStream.Next, dif_neg h]
  · intro s h1 h2
    obtain ⟨pending, closed⟩ := s
    simp only at h1 h2
    subst h1
    subst h2
    rfl

/-- Witness for C10 at an exhausted SliceStream and a closed empty
ChannelStream; `default` for Int is 0. -/
theorem exhausted_next_returns_zero_witness :
    SliceStream.Next (⟨[5], 1⟩ : SliceStream Int) = ((0 : Int), false, ⟨[5], 1⟩)
      ∧ ChannelStream.Next (⟨[], true⟩ : ChannelStream Int)
          = some ((0 : Int), false, ⟨[], true⟩) :=
  ⟨exhausted_next_returns_zero.1 ⟨[5], 1⟩ (by decide),
   exhausted_next_returns_zero.2 ⟨[], true⟩ rfl rfl⟩

/-- C8: once Next has reported exhaustion, every subsequent call also
reports exhaustion, for both stream adapters: an exhausted SliceStream
leaves its cursor untouched, and a ChannelStream only reports
exhaustion when closed and empty, a state Next never leaves. -/
theorem exhaustion_idempotent :
    (∀ s : SliceStream Int, s.Next.2.1 = false →
        ∀ n : Nat, (SliceStream.stepN n s).Next.2.1 = false)
      ∧ (∀ (s s' : ChannelStream Int) (v : Int),
          s.Next = some (v, false, s') →
          ∀ n : Nat, (ChannelStream.stepN n s').Next
              = some (default, false, ChannelStream.stepN n s')) := by
  constructor
  · intro s h n
    have hfix : s.Next = (default, false, s) := by
      by_cases hp : s.pos < s.slice.length
      · rw [SliceStream.Next, dif_pos hp] at h
        simp at h
      · rw [SliceStream.Next, dif_neg hp]
    have hstep : s.step = s := by
      rw [SliceStream.step, hfix]
    have hN : SliceStream.stepN n s = s := by
      induction n with
      | zero => rfl
      | succ n ihn => rw [SliceStream.stepN, hstep, ihn]
    rw [hN, hfix]
  · intro s s' v h
    obtain ⟨pending, closed⟩ := s
    cases pending with
    | cons a rest =>
        simp [ChannelStream.Next] at h
    | nil =>
        cases closed with
        | false =>
            simp [ChannelStream.Next] at h
        | true =>
            simp [ChannelStream.Next] at h
            obtain ⟨hv, hs⟩ := h
            subst hs
            intro n
            have hstep : (⟨[], true⟩ : ChannelStream Int).step = ⟨[], true⟩ := rfl
            have hN : ChannelStream.stepN n (⟨[], true⟩ : ChannelStream Int)
                = ⟨[], true⟩ := by
              induction n with
              | zero => rfl
              | succ n ihn => rw [ChannelStream.stepN, hstep, ihn]
            rw [hN]
            rfl

/-- Witness for C8: after three further calls, an exhausted SliceStream
and a closed empty ChannelStream still report exhaustion. -/
theorem exhaustion_idempotent_witness :
    (SliceStream.stepN 3 (⟨[5], 1⟩ : SliceStream Int)).Next.2.1 = false
      ∧ (ChannelStream.stepN 3 (⟨[], true⟩ : ChannelStream Int)).Next
          = some (default, false, ChannelStream.stepN 3 (⟨[], true⟩ : ChannelStream Int)) :=
  ⟨exhaustion_idempotent.1 ⟨[5], 1⟩ (by decide) 3,
   exhaustion_idempotent.2 ⟨[], true⟩ ⟨[], true⟩ default (by decide) 3⟩

/-- Every signal the stream1-exhausted drain loop emits is right-only. -/
theorem drainStream2_shape (e : Bool) (i : T) (s : List T) :
    ∀ p ∈ drainStream2 e i s, p.1 = none ∧ p.2.isSome := by
  induction s generalizing e i with
  | nil =>
      intro p hp
      cases e <;> simp [drainStream2] at hp <;> simp [hp]
  | cons v s ihs =>
      intro p hp
      cases e with
      | false =>
          simp only [drainStream2, Bool.false_eq_true, if_false, List.cons_append,
            List.nil_append, List.mem_cons] at hp
          rcases hp with hp | hp | hp
          · simp [hp]
          · simp [hp]
          · exact ihs false v p hp
      | true =>
          simp only [drainStream2, if_true, List.nil_append, List.mem_cons] at hp
          rcases hp with hp | hp
          · simp [hp]
          · exact ihs true v p hp

/-- Every signal the stream2-exhausted drain loop emits is left-only. -/
theorem drainStream1_shape (e : Bool) (i : T) (s : List T) :
    ∀ p ∈ drainStream1 e i s, p.1.isSome ∧ p.2 = none := by
  induction s generalizing e i with
  | nil =>
      intro p hp
      cases e <;> simp [drainStream1] at hp <;> simp [hp]
  | cons v s ihs =>
      intro p hp
      cases e with
      | false =>
          simp only [drainStream1, Bool.false_eq_true, if_false, List.cons_append,
            List.nil_append, List.mem_cons] at hp
          rcases hp with hp | hp | hp
          · simp [hp]
          · simp [hp]
          · exact ihs true v p hp
      | true =>
          simp only [drainStream1, if_true, List.nil_append, List.mem_cons] at hp
          rcases hp with hp | hp
          · simp [hp]
          · exact ihs true v p hp

theorem mergeLoop_shape_aux (n : Nat) :
    ∀ (stop : shouldStop) (asc : Bool) (i1 i2 : T) (s1 s2 : List T),
      s1.length + s2.length = n →
      ∀ p ∈ (mergeLoop stop asc i1 i2 s1 s2).trace,
        (p.1.isSome ∧ p.2 = none) ∨ (p.1 = none ∧ p.2.isSome)
          ∨ (p.1.isSome ∧ p.2.isSome) := by
  induction n using Nat.strong_induction_on with
  | _ n ih =>
  intro stop asc i1 i2 s1 s2 hn p hp
  rw [mergeLoop.eq_def] at hp
  split_ifs at hp
  all_goals rcases s1 with _ | ⟨a, s1'⟩
  all_goals rcases s2 with _ | ⟨b, s2'⟩
  all_goals simp at hp
  all_goals try rcases hp with hp | hp
  all_goals try simp [hp]
  all_goals
    first
      | (simp; done)
      | exact Or.inr (Or.inl (drainStream2_shape _ _ _ p hp))
      | exact Or.inl (drainStream1_shape _ _ _ p hp)
      | (refine ih _ ?_ stop asc _ _ _ _ rfl p hp
         simp only [List.length_cons, List.length_nil] at hn ⊢
         omega)

/-- C9: every combine-callback invocation made by iterate has exactly
one of the three legal presence shapes — left-only, right-only, or
both present — and never both pointers nil, for every pair of input
streams, direction flag and stop policy. -/
theorem iterate_signal_shapes (stop : shouldStop) (asc : Bool) (s1 s2 : List Int)
    (p : Signal Int) (hp : p ∈ (iterate stop asc s1 s2).trace) :
    (p.1.isSome ∧ p.2 = none) ∨ (p.1 = none ∧ p.2.isSome)
      ∨ (p.1.isSome ∧ p.2.isSome) := by
  cases s1 with
  | nil =>
      simp only [iterate] at hp
      split_ifs at hp
      · simp at hp
      · exact Or.inr (Or.inl (drainStream2_shape true default s2 p hp))
  | cons a s1' =>
      cases s2 with
      | nil =>
          simp only [iterate] at hp
          split_ifs at hp
          · simp at hp
          · exact Or.inl (drainStream1_shape false a s1' p hp)
      | cons b s2' =>
          simp only [iterate] at hp
          exact mergeLoop_shape_aux (s1'.length + s2'.length) stop asc a b s1' s2'
            rfl p hp

/-- Witness for C9: the first signal of a concrete Union run is
left-only. -/
theorem iterate_signal_shapes_witness :
    ((some (1 : Int), (none : Option Int)).1.isSome
        ∧ (some (1 : Int), (none : Option Int)).2 = none)
      ∨ ((some (1 : Int), (none : Option Int)).1 = none
        ∧ (some (1 : Int), (none : Option Int)).2.isSome)
      ∨ ((some (1 : Int), (none : Option Int)).1.isSome
        ∧ (some (1 : Int), (none : Option Int)).2.isSome) :=
  iterate_signal_shapes unionStop true [1] [2, 3] (some 1, none)
    (by simp [iterate, mergeLoop, drainStream1, drainStream2, unionStop])

end SortedNumericStreams
